import Mathlib

/-!
Verification of the sabledb core against its natural-language specification.

The development shallowly embeds the Rust sources of the repository:
byte strings become `List Nat`, the raw ordered key/value store becomes a
function `Bytes → Option Bytes`, fallible and stateful code becomes explicit
state passing.  Every definition is translated from the corresponding source
function (file and symbol named in its doc comment); the few pieces of the
repository whose sources are not available (the `Expiration` metadata helpers,
`GenericDb`, the list substructure removal, and the `StorageUpdates` codec)
are modelled from the specification and marked as such.
-/

set_option maxHeartbeats 1000000

namespace SableSpec

/-- Raw byte strings (user keys, raw keys, values) are modelled as lists of
naturals; each entry stands for one byte. -/
abbrev Bytes := List Nat

/-- RESP replies produced by the handlers modelled here: integer replies and
error replies (the error message is kept as a Lean string). -/
inductive RespReply where
  | int (n : Int)
  | err (msg : String)
deriving DecidableEq

/-! ## Raw key/value store (`src/libsabledb/src/storage/storage_rocksdb.rs`)

The rocksdb store is modelled as a partial map from raw keys to raw values.
`kvPut` and `kvDelete` are the store's primitive `put` / `delete`. -/

/-- The raw ordered key/value store: a partial map from raw keys to values. -/
abbrev RawStore := Bytes → Option Bytes

/-- Primitive store write: full replacement of the value under `k`. -/
def kvPut (s : RawStore) (k v : Bytes) : RawStore :=
  fun q => if q = k then some v else s q

/-- Primitive store delete of the raw key `k`. -/
def kvDelete (s : RawStore) (k : Bytes) : RawStore :=
  fun q => if q = k then none else s q

/-- Embedding of `storage::PutFlags` (`storage_adapter`), the conditional-write
flags accepted by `StorageRocksDb::put_internal`. -/
inductive PutFlags where
  | Override
  | PutIfNotExists
  | PutIfExists
deriving DecidableEq

/-- Embedding of `StorageRocksDb::put_internal`
(`src/libsabledb/src/storage/storage_rocksdb.rs`): `Override` writes
unconditionally; `PutIfNotExists` first reads the key and returns with the
store unchanged when the key already exists; `PutIfExists` returns with the
store unchanged when the key is absent.  All paths return `Ok`, which the
model expresses by totality. -/
def put_internal (s : RawStore) (key value : Bytes) (put_flags : PutFlags) : RawStore :=
  match put_flags with
  | .Override => kvPut s key value
  | .PutIfNotExists =>
    match s key with
    | some _ => s
    | none => kvPut s key value
  | .PutIfExists =>
    match s key with
    | none => s
    | some _ => kvPut s key value

/-- Embedding of `BatchUpdate` as consumed by `StorageRocksDb::apply_batch`:
an optional set of keys to delete and an ordered list of key/value pairs to
put (the `None` cases of the two accessors are the empty lists). -/
structure BatchUpdate where
  keys_to_delete : List Bytes
  items_to_put : List (Bytes × Bytes)

/-- Embedding of `StorageRocksDb::apply_batch`
(`src/libsabledb/src/storage/storage_rocksdb.rs`): build one write batch by
first appending every `delete`, then every `put`, and commit it; the store
applies the batch entries in that order. -/
def apply_batch (update : BatchUpdate) (s : RawStore) : RawStore :=
  update.items_to_put.foldl (fun t kv => kvPut t kv.1 kv.2)
    (update.keys_to_delete.foldl (fun t k => kvDelete t k) s)

/-- The last value put for key `k` by a list of put records, if any. -/
def putsAt (puts : List (Bytes × Bytes)) (k : Bytes) : Option Bytes :=
  puts.foldl (fun acc kv => if kv.1 = k then some kv.2 else acc) none

/-! ## Expiration metadata and the generic commands
(`src/libsabledb/src/commands/generic_commands.rs`)

The handlers read and write entries through `GenericDb`, whose state is
modelled as a partial map from user keys to their expiration metadata (the
payload and the exact type tag are irrelevant to TTL/EXPIRE/EXISTS). -/

/-- Modelled from the spec: the `expiration` field of the common value
metadata is `{absent | absolute-expiry-micros}` (spec §3); its source file
(`metadata.rs`) is not part of the sample. -/
structure Expiration where
  expiry_micros : Option Nat
deriving DecidableEq

/-- Modelled from the spec: `has_ttl` helper of the expiration metadata. -/
def Expiration.has_ttl (e : Expiration) : Bool :=
  e.expiry_micros.isSome

/-- Modelled from the spec: `ttl_in_seconds` returns the ceiling of the
remaining microseconds divided by 10⁶ (spec §4.3, TTL).  When the entry has
no TTL there is no "current" value to compare against (spec §8: "EXPIRE GT on
a key without TTL returns 0 — there is no current to exceed"), which the
model renders as the largest `u64`. -/
def Expiration.ttl_in_seconds (e : Expiration) (now : Nat) : Nat :=
  match e.expiry_micros with
  | some t => (t - now + 999999) / 1000000
  | none => 2 ^ 64 - 1

/-- Modelled from the spec: `set_ttl_seconds` stores the absolute expiry
`now + seconds` converted to microseconds; only the expiration sub-field is
rewritten (spec §3, invariant 6). -/
def Expiration.set_ttl_seconds (e : Expiration) (now seconds : Nat) : Expiration :=
  { e with expiry_micros := some (now + seconds * 1000000) }

/-- State visible to the generic command handlers through `GenericDb`: each
present user key carries its expiration metadata. -/
abbrev GenericDbState := Bytes → Option Expiration

/-- Modelled from the spec: `GenericDb::put_expiration` rewrites the
expiration metadata of `key`, leaving everything else unchanged. -/
def put_expiration (db : GenericDbState) (key : Bytes) (e : Expiration) : GenericDbState :=
  fun q => if q = key then some e else db q

/-- Embedding of `GenericCommands::ttl`
(`src/libsabledb/src/commands/generic_commands.rs`): reply `-2` when the key
is absent, `-1` when it is present without TTL, and otherwise the value of
`ttl_in_seconds` as an integer reply. -/
def GenericCommands.ttl (db : GenericDbState) (now : Nat) (key : Bytes) : RespReply :=
  match db key with
  | none => .int (-2)
  | some value_metadata =>
    if !value_metadata.has_ttl then .int (-1)
    else .int (value_metadata.ttl_in_seconds now)

/-- ASCII lowercasing of one character, as done by Rust's `to_lowercase` on
the ASCII option tokens. -/
def charLower (c : Char) : Char :=
  if 65 ≤ c.toNat ∧ c.toNat ≤ 90 then Char.ofNat (c.toNat + 32) else c

/-- ASCII lowercasing of an option token. -/
def strLower (s : String) : String :=
  ⟨s.data.map charLower⟩

/-- Embedding of `GenericCommands::expire`
(`src/libsabledb/src/commands/generic_commands.rs`): on an absent key reply
`0`; with no modifier set the TTL unconditionally and reply `1`; with a
modifier, lowercase it and dispatch on `nx` / `xx` / `gt` / `lt`, replying
`1` when the expiration was written and `0` otherwise; any other token
produces the error reply `ERR Unsupported option <tok>` (with the lowercased
token).  `seconds` is the already-parsed second count. -/
def GenericCommands.expire (db : GenericDbState) (now : Nat) (key : Bytes)
    (seconds : Nat) (modifier : Option String) : GenericDbState × RespReply :=
  match db key with
  | none => (db, .int 0)
  | some expiration =>
    match modifier with
    | none => (put_expiration db key (expiration.set_ttl_seconds now seconds), .int 1)
    | some arg =>
      let a := strLower arg
      if a = "nx" then
        if !expiration.has_ttl then
          (put_expiration db key (expiration.set_ttl_seconds now seconds), .int 1)
        else (db, .int 0)
      else if a = "xx" then
        if expiration.has_ttl then
          (put_expiration db key (expiration.set_ttl_seconds now seconds), .int 1)
        else (db, .int 0)
      else if a = "gt" then
        if seconds > expiration.ttl_in_seconds now then
          (put_expiration db key (expiration.set_ttl_seconds now seconds), .int 1)
        else (db, .int 0)
      else if a = "lt" then
        if seconds < expiration.ttl_in_seconds now then
          (put_expiration db key (expiration.set_ttl_seconds now seconds), .int 1)
        else (db, .int 0)
      else (db, .err ("ERR Unsupported option " ++ a))

/-- Embedding of `GenericCommands::exists`
(`src/libsabledb/src/commands/generic_commands.rs`): iterate over the key
arguments and count, one read per argument position, how many are present
(`GenericDb::contains`, modelled as presence in the map). -/
def GenericCommands.existsCount (db : GenericDbState) (keys : List Bytes) : Nat :=
  keys.foldl (fun items_found k => if (db k).isSome then items_found + 1 else items_found) 0

/-! ## Server state (`src/libsabledb/src/server.rs`) -/

/-- Embedding of the role portion of `ServerState`
(`src/libsabledb/src/server.rs`): the `role_primary: AtomicBool` field.  The
atomic load/store pairs are modelled as plain state passing, since the claims
quantify over sequences of role transitions. -/
structure ServerState where
  role_primary : Bool
deriving DecidableEq

/-- Embedding of `ServerState::new`: the role flag starts as `true`. -/
def ServerState.new : ServerState :=
  { role_primary := true }

/-- Embedding of `ServerState::is_primary`. -/
def ServerState.is_primary (s : ServerState) : Bool :=
  s.role_primary

/-- Embedding of `ServerState::is_replica`: the negation of `is_primary`. -/
def ServerState.is_replica (s : ServerState) : Bool :=
  !s.is_primary

/-- Embedding of `ServerState::set_primary`. -/
def ServerState.set_primary (s : ServerState) : ServerState :=
  { s with role_primary := true }

/-- Embedding of `ServerState::set_replica`. -/
def ServerState.set_replica (s : ServerState) : ServerState :=
  { s with role_primary := false }

/-- One role transition call on the server state. -/
inductive RoleOp where
  | setPrimary
  | setReplica
deriving DecidableEq

/-- Runs a sequence of `set_primary` / `set_replica` calls on a server state. -/
def runRoleOps (ops : List RoleOp) (s : ServerState) : ServerState :=
  ops.foldl
    (fun t op =>
      match op with
      | .setPrimary => t.set_primary
      | .setReplica => t.set_replica)
    s

/-! ## Blocked-client registry (`src/libsabledb/src/server.rs`) -/

/-- One waiter channel sender queued in the blocked-clients table.  `closed`
records that the receive side has already been dropped (a timed-out waiter),
in which case `send` returns an error. -/
structure Sender where
  sid : Nat
  closed : Bool
deriving DecidableEq

/-- The blocked-clients table (`BlockedClientTable` in `server.rs`): an
association list from user key to the FIFO queue of waiting senders; the
front of each queue is the oldest waiter. -/
abbrev BlockedClientTable := List (Bytes × List Sender)

/-- Table lookup of the queue registered for `key`. -/
def lookupQueue : BlockedClientTable → Bytes → Option (List Sender)
  | [], _ => none
  | (k, q) :: rest, key => if k = key then some q else lookupQueue rest key

/-- Replaces the queue registered for `key` (the key stays in the table). -/
def setQueue : BlockedClientTable → Bytes → List Sender → BlockedClientTable
  | [], _, _ => []
  | (k, q) :: rest, key, q2 =>
    if k = key then (k, q2) :: rest else (k, q) :: setQueue rest key q2

/-- Removes the map entry for `key`. -/
def removeQueue : BlockedClientTable → Bytes → BlockedClientTable
  | [], _ => []
  | (k, q) :: rest, key =>
    if k = key then rest else (k, q) :: removeQueue rest key

/-- Embedding of the pop/send loop inside `ServerState::wakeup_clients`
(`src/libsabledb/src/server.rs`): while `num_clients > 0`, pop the front
sender and send a one-byte signal on it; a send on a closed sender fails and
does not decrement `num_clients`.  Returns the remaining queue, the senders
popped, and the senders actually signalled. -/
def popWakeups : Nat → List Sender → List Sender × List Sender × List Sender
  | 0, q => (q, [], [])
  | _ + 1, [] => ([], [], [])
  | n + 1, s :: q =>
    if s.closed then
      let r := popWakeups (n + 1) q
      (r.1, s :: r.2.1, r.2.2)
    else
      let r := popWakeups n q
      (r.1, s :: r.2.1, s :: r.2.2)

/-- Embedding of `ServerState::wakeup_clients`
(`src/libsabledb/src/server.rs`): nothing happens when the whole table is
empty or when `key` has no queue; otherwise the pop/send loop runs and the
map entry is removed exactly when the queue is empty afterwards.  Returns the
new table together with the popped and the signalled senders. -/
def wakeup_clients (st : BlockedClientTable) (key : Bytes) (num_clients : Nat) :
    BlockedClientTable × List Sender × List Sender :=
  if st.isEmpty then (st, [], [])
  else
    match lookupQueue st key with
    | none => (st, [], [])
    | some channel_queue =>
      let r := popWakeups num_clients channel_queue
      if r.1.isEmpty then (removeQueue st key, r.2.1, r.2.2)
      else (setQueue st key r.1, r.2.1, r.2.2)

/-! ## DEL over the typed storage
(`src/libsabledb/src/commands/generic_commands.rs`) -/

/-- The `value_type` tags of the primary-entry metadata (`Encoding` in
`metadata.rs`, not part of the sample).  `GenericCommands::del` matches on
`VALUE_STRING` and `VALUE_LIST` only; every other tag — in particular the
hash tag — falls into its catch-all `Some(unknown_type)` arm. -/
inductive ValueEnc where
  | VALUE_STRING
  | VALUE_LIST
  | VALUE_HASH
deriving DecidableEq

/-- Modelled from the spec: the typed key space of §3, restricted to what DEL
touches.  `primaryType` is the primary entry keyed by user key (its payload
is irrelevant to DEL, only presence and the metadata type tag matter);
`listNodes` are the list-node raw keys (node id keyed) of each user key;
`hashFields` are the hash-field raw keys (field keyed) of each user key. -/
structure TypedDb where
  primaryType : Bytes → Option ValueEnc
  listNodes : Bytes → Nat → Option Bytes
  hashFields : Bytes → Bytes → Option Bytes

/-- Modelled from the spec: `GenericDb::delete` (file `generic_db.rs`, not
part of the sample) removes the user key's primary entry and nothing else —
it is type-agnostic, so it cannot reach substructure raw keys. -/
def GenericDb.delete (db : TypedDb) (k : Bytes) : TypedDb :=
  { db with primaryType := fun q => if q = k then none else db.primaryType q }

/-- Modelled from the spec: `List::remove` with no count (file `types/list`,
not part of the sample) removes the primary entry and every list-node entry
of the key. -/
def ListDb.remove (db : TypedDb) (k : Bytes) : TypedDb :=
  { db with
    primaryType := fun q => if q = k then none else db.primaryType q,
    listNodes := fun q i => if q = k then none else db.listNodes q i }

/-- Embedding of one iteration of the key loop of `GenericCommands::del`
(`src/libsabledb/src/commands/generic_commands.rs`): look the type up via
`query_key_type`; strings go through `GenericDb::delete`, lists through
`List::remove`, any other present type through the catch-all arm that also
calls `GenericDb::delete`; an absent key deletes nothing.  The boolean tells
whether `deleted_items` was incremented. -/
def GenericCommands.delOne (db : TypedDb) (user_key : Bytes) : TypedDb × Bool :=
  match db.primaryType user_key with
  | some .VALUE_STRING => (GenericDb.delete db user_key, true)
  | some .VALUE_LIST => (ListDb.remove db user_key, true)
  | some .VALUE_HASH => (GenericDb.delete db user_key, true)
  | none => (db, false)

/-- Embedding of `GenericCommands::del`: process the key arguments in order,
each under its key lock (per-key atomicity in this sequential model), and
reply with the number of keys actually removed. -/
def GenericCommands.del (db : TypedDb) : List Bytes → TypedDb × Nat
  | [] => (db, 0)
  | user_key :: rest =>
    let r := GenericCommands.delOne db user_key
    let next := GenericCommands.del r.1 rest
    (next.1, (if r.2 then 1 else 0) + next.2)

/-! ## Replication change-stream
(`src/libsabledb/src/storage/storage_rocksdb.rs`) -/

/-- One put/delete record of a `StorageUpdates` body (spec §4.5; the codec
file `storage_updates.rs` is not part of the sample). -/
inductive URecord where
  | put (key value : Bytes)
  | del (key : Bytes)
deriving DecidableEq

/-- Modelled from the spec: serialized size in bytes of one record — a tag
byte plus length-prefixed key (and value for puts), with 8-byte length
prefixes. -/
def URecord.serializedLen : URecord → Nat
  | .put k v => 1 + 8 + k.length + 8 + v.length
  | .del k => 1 + 8 + k.length

/-- Modelled from the spec: the `StorageUpdates` batch — start/end sequence
numbers, the `changes_count` counter, and the serialized body, kept here as
the list of its records. -/
structure StorageUpdates where
  start_seq_number : Nat
  end_seq_number : Nat
  changes_count : Nat
  records : List URecord
deriving DecidableEq

/-- Modelled from the spec: `StorageUpdates::from_seq_number` — an empty
batch starting at `s`. -/
def StorageUpdates.from_seq_number (s : Nat) : StorageUpdates :=
  ⟨s, s, 0, []⟩

/-- Modelled from the spec: `StorageUpdates::len`, the byte length of the
serialized body. -/
def StorageUpdates.len (u : StorageUpdates) : Nat :=
  (u.records.map URecord.serializedLen).sum

/-- One committed write batch of the storage engine's change log, as yielded
by `get_updates_since`: its commit sequence number and its put/delete
records in commit order. -/
structure Commit where
  seq : Nat
  writes : List URecord
deriving DecidableEq

/-- Embedding of one loop iteration of `StorageRocksDb::storage_updates_since`
(`src/libsabledb/src/storage/storage_rocksdb.rs`): `write_batch.iterate`
appends every record of the commit to the body, then
`UpdateBatchIterator::update(seq)` sets `end_seq_number` and increments
`changes_count` once — once per commit, not once per record. -/
def UpdateBatchIterator.step (acc : StorageUpdates) (c : Commit) : StorageUpdates :=
  { acc with
    records := acc.records ++ c.writes,
    end_seq_number := c.seq,
    changes_count := acc.changes_count + 1 }

/-- Embedding of the two limit checks at the bottom of the loop of
`storage_updates_since`: they run after the whole commit was appended, and
fire once the body length reaches `memory_limit` or `changes_count` reaches
`changes_count_limit`. -/
def limitReached (memory_limit changes_count_limit : Option Nat) (acc : StorageUpdates) : Bool :=
  (match memory_limit with
   | some m => decide (m ≤ acc.len)
   | none => false)
  || (match changes_count_limit with
      | some l => decide (l ≤ acc.changes_count)
      | none => false)

/-- The commit loop of `storage_updates_since`: process commits in order,
stopping right after the first commit at which a limit check fires. -/
def updatesLoop (memory_limit changes_count_limit : Option Nat) :
    List Commit → StorageUpdates → StorageUpdates
  | [], acc => acc
  | c :: rest, acc =>
    let acc2 := UpdateBatchIterator.step acc c
    if limitReached memory_limit changes_count_limit acc2 then acc2
    else updatesLoop memory_limit changes_count_limit rest acc2

/-- Embedding of `StorageRocksDb::storage_updates_since`
(`src/libsabledb/src/storage/storage_rocksdb.rs`).  The rocksdb iterator
`get_updates_since(sequence_number)` is modelled by filtering the engine's
commit log `log` to the commits past `sequence_number`. -/
def storage_updates_since (log : List Commit) (sequence_number : Nat)
    (memory_limit changes_count_limit : Option Nat) : StorageUpdates :=
  updatesLoop memory_limit changes_count_limit
    (log.filter (fun c => decide (sequence_number < c.seq)))
    (StorageUpdates.from_seq_number sequence_number)

/-- A log of single-record commits with consecutive sequence numbers
`s + 1, s + 2, …`, one record each — the shape produced by a run of
single-SET commits. -/
def commitsFrom (s : Nat) : List URecord → List Commit
  | [] => []
  | r :: rs => ⟨s + 1, [r]⟩ :: commitsFrom (s + 1) rs

end SableSpec

namespace SableSpec

/-! ## Theorems: raw store (claims C6, C9) -/

theorem putsAt_start (rest : List (Bytes × Bytes)) :
    ∀ (a : Option Bytes) (k : Bytes),
      rest.foldl (fun acc kv => if kv.1 = k then some kv.2 else acc) a
        = match putsAt rest k with
          | some v => some v
          | none => a := by
  induction rest with
  | nil => intro a k; simp [putsAt]
  | cons p r ih =>
    intro a k
    show r.foldl _ (if p.1 = k then some p.2 else a) = _
    rw [ih]
    have hr : putsAt (p :: r) k
        = r.foldl (fun acc kv => if kv.1 = k then some kv.2 else acc)
            (if p.1 = k then some p.2 else none) := rfl
    rw [hr, ih]
    cases h : putsAt r k with
    | none => by_cases hp : p.1 = k <;> simp [hp]
    | some v => simp

theorem apply_puts_point (puts : List (Bytes × Bytes)) :
    ∀ (s : RawStore) (k : Bytes),
      (puts.foldl (fun t kv => kvPut t kv.1 kv.2) s) k
        = match putsAt puts k with
          | some v => some v
          | none => s k := by
  induction puts with
  | nil => intro s k; simp [putsAt]
  | cons p rest ih =>
    intro s k
    show (rest.foldl _ (kvPut s p.1 p.2)) k = _
    rw [ih]
    have hr : putsAt (p :: rest) k
        = rest.foldl (fun acc kv => if kv.1 = k then some kv.2 else acc)
            (if p.1 = k then some p.2 else none) := rfl
    rw [hr, putsAt_start]
    cases h : putsAt rest k with
    | none =>
      by_cases hp : p.1 = k
      · simp [kvPut, hp]
      · have hk : ¬ (k = p.1) := fun hkk => hp hkk.symm
        simp [kvPut, hp, hk]
    | some v => simp

theorem apply_dels_point (dels : List Bytes) :
    ∀ (s : RawStore) (k : Bytes),
      (dels.foldl (fun t q => kvDelete t q) s) k
        = if k ∈ dels then none else s k := by
  induction dels with
  | nil => intro s k; simp
  | cons d rest ih =>
    intro s k
    show (rest.foldl _ (kvDelete s d)) k = _
    rw [ih]
    by_cases hmem : k ∈ rest
    · simp [hmem]
    · by_cases hd : k = d <;> simp [kvDelete, hmem, hd]

theorem apply_batch_point (b : BatchUpdate) (s : RawStore) (k : Bytes) :
    apply_batch b s k
      = match putsAt b.items_to_put k with
        | some v => some v
        | none => if k ∈ b.keys_to_delete then none else s k := by
  unfold apply_batch
  rw [apply_puts_point]
  cases h : putsAt b.items_to_put k with
  | none => simp [apply_dels_point]
  | some v => simp

/-- Claim C6: applying the same replication batch twice via `apply_batch`
leaves the store in the same state as applying it once — every put is a full
replacement keyed by its complete raw key and every delete is keyed the same
way, so the second application rewrites exactly what the first wrote. -/
theorem apply_batch_idempotent (b : BatchUpdate) (s : RawStore) :
    apply_batch b (apply_batch b s) = apply_batch b s := by
  funext k
  rw [apply_batch_point, apply_batch_point]
  cases h : putsAt b.items_to_put k with
  | some v => simp
  | none =>
    by_cases hmem : k ∈ b.keys_to_delete
    · simp [hmem]
    · simp [hmem, apply_batch_point, h]

/-- Claim C9: `put_internal` with `PutIfNotExists` on an existing key is a
no-op that still succeeds, and with `PutIfExists` on an absent key likewise;
in both cases the whole store (hence every other key) is unchanged. -/
theorem put_internal_conditional_noop (s : RawStore) (key value w : Bytes) :
    (s key = some w →
        put_internal s key value PutFlags.PutIfNotExists = s
        ∧ put_internal s key value PutFlags.PutIfNotExists key = some w)
    ∧ (s key = none →
        put_internal s key value PutFlags.PutIfExists = s
        ∧ put_internal s key value PutFlags.PutIfExists key = none) := by
  constructor
  · intro h
    have : put_internal s key value PutFlags.PutIfNotExists = s := by
      unfold put_internal
      rw [h]
    exact ⟨this, by rw [this, h]⟩
  · intro h
    have : put_internal s key value PutFlags.PutIfExists = s := by
      unfold put_internal
      rw [h]
    exact ⟨this, by rw [this, h]⟩

/-- Concrete store used by witnesses: key `[1]` holds `[7]`, all else absent. -/
def rawStoreW : RawStore := fun q => if q = [1] then some [7] else none

/-- Witness for claim C9 at a concrete store: `[1]` is present so the
`PutIfNotExists` no-op case applies, `[2]` is absent so the `PutIfExists`
no-op case applies. -/
theorem put_internal_conditional_noop_witness :
    (rawStoreW [1] = some [7] ∧ put_internal rawStoreW [1] [9] PutFlags.PutIfNotExists [1] = some [7])
    ∧ (rawStoreW [2] = none ∧ put_internal rawStoreW [2] [9] PutFlags.PutIfExists [2] = none) :=
  ⟨⟨by decide, ((put_internal_conditional_noop rawStoreW [1] [9] [7]).1 (by decide)).2⟩,
   ⟨by decide, ((put_internal_conditional_noop rawStoreW [2] [9] [7]).2 (by decide)).2⟩⟩

/-! ## Theorems: EXISTS (claim C8) -/

theorem existsCount_aux (db : GenericDbState) (keys : List Bytes) :
    ∀ acc : Nat,
      keys.foldl (fun items_found k => if (db k).isSome then items_found + 1 else items_found) acc
        = acc + keys.countP (fun k => (db k).isSome) := by
  induction keys with
  | nil => intro acc; simp
  | cons k rest ih =>
    intro acc
    by_cases h : (db k).isSome
    · simp only [List.foldl_cons, List.countP_cons, h, if_true]
      rw [ih]
      omega
    · simp only [List.foldl_cons, List.countP_cons, h, if_false]
      rw [ih]
      simp [h]

/-- Claim C8: EXISTS replies with the number of argument positions whose key
is present, each occurrence of a repeated key counted separately; in
particular `EXISTS k k` on an existing key replies 2. -/
theorem existsCount_spec (db : GenericDbState) (keys : List Bytes) (k : Bytes) :
    GenericCommands.existsCount db keys = keys.countP (fun q => (db q).isSome)
    ∧ ((db k).isSome = true → GenericCommands.existsCount db [k, k] = 2) := by
  constructor
  · unfold GenericCommands.existsCount
    rw [existsCount_aux]
    omega
  · intro h
    unfold GenericCommands.existsCount
    simp [h]

/-- Concrete generic-command database used by witnesses: key `[1]` is present
with an expiry at 5 000 000 µs, key `[2]` is present without TTL, all other
keys are absent. -/
def genericDbW : GenericDbState :=
  fun q =>
    if q = [1] then some ⟨some 5000000⟩
    else if q = [2] then some ⟨none⟩
    else none

/-- Witness for claim C8: `[1]` exists, and EXISTS `[1] [1]` counts it twice;
the count over `[[1], [3], [2]]` is 2. -/
theorem existsCount_spec_witness :
    (genericDbW [1]).isSome = true
    ∧ GenericCommands.existsCount genericDbW [[1], [1]] = 2
    ∧ GenericCommands.existsCount genericDbW [[1], [3], [2]] = 2 :=
  ⟨by decide,
   (existsCount_spec genericDbW [[1], [1]] [1]).2 (by decide),
   by have h := (existsCount_spec genericDbW [[1], [3], [2]] [1]).1
      rw [h]; decide⟩

/-! ## Theorems: server role (claim C10) -/

/-- Claim C10: a newly constructed `ServerState` has the primary role, and
after any sequence of `set_primary` / `set_replica` calls, `is_replica`
returns exactly the negation of `is_primary`. -/
theorem server_role_invariant :
    ServerState.new.is_primary = true
    ∧ ∀ ops : List RoleOp,
        (runRoleOps ops ServerState.new).is_replica
          = !(runRoleOps ops ServerState.new).is_primary := by
  exact ⟨rfl, fun ops => rfl⟩

/-! ## Theorems: TTL (claim C7) -/

theorem ceil_div_micros (d : Nat) :
    (((d + 999999) / 1000000 : Nat) : Int) = ⌈(d : ℚ) / (1000000 : ℚ)⌉ := by
  have hdm := Nat.div_add_mod (d + 999999) 1000000
  have hlt : (d + 999999) % 1000000 < 1000000 := Nat.mod_lt _ (by norm_num)
  set n : Nat := (d + 999999) / 1000000 with hn
  have hA : d ≤ 1000000 * n := by omega
  have hB : 1000000 * n ≤ d + 999999 := by omega
  rw [eq_comm, Int.ceil_eq_iff]
  constructor
  · rw [lt_div_iff₀ (by norm_num : (0 : ℚ) < 1000000)]
    have hB' : (1000000 * n : ℚ) ≤ (d : ℚ) + 999999 := by exact_mod_cast hB
    push_cast
    linarith
  · rw [div_le_iff₀ (by norm_num : (0 : ℚ) < 1000000)]
    have hA' : (d : ℚ) ≤ 1000000 * n := by exact_mod_cast hA
    push_cast
    linarith

/-- Claim C7: TTL replies −2 when the key does not exist, −1 when it exists
without TTL, and otherwise the ceiling of the remaining microseconds divided
by 10⁶ (the remaining time truncates at zero once the expiry is past). -/
theorem ttl_spec (db : GenericDbState) (now : Nat) (key : Bytes) (e : Expiration) (t : Nat) :
    (db key = none → GenericCommands.ttl db now key = .int (-2))
    ∧ (db key = some e → e.expiry_micros = none →
        GenericCommands.ttl db now key = .int (-1))
    ∧ (db key = some e → e.expiry_micros = some t →
        GenericCommands.ttl db now key = .int ⌈((t - now : Nat) : ℚ) / (1000000 : ℚ)⌉) := by
  refine ⟨fun h => ?_, fun h hn => ?_, fun h ht => ?_⟩
  · unfold GenericCommands.ttl
    rw [h]
  · unfold GenericCommands.ttl
    rw [h]
    simp [Expiration.has_ttl, hn]
  · unfold GenericCommands.ttl
    rw [h]
    simp only [Expiration.has_ttl, ht, Option.isSome_some, Bool.not_true, Bool.false_eq_true,
      if_false]
    rw [← ceil_div_micros]
    unfold Expiration.ttl_in_seconds
    rw [ht]

/-- Witness for claim C7 at the concrete database `genericDbW` with
`now = 0`: key `[3]` is absent (reply −2), key `[2]` has no TTL (reply −1),
and key `[1]` expires at 5 000 000 µs (reply ⌈5 000 000 / 10⁶⌉). -/
theorem ttl_spec_witness :
    GenericCommands.ttl genericDbW 0 [3] = .int (-2)
    ∧ GenericCommands.ttl genericDbW 0 [2] = .int (-1)
    ∧ GenericCommands.ttl genericDbW 0 [1]
        = .int ⌈((5000000 - 0 : Nat) : ℚ) / (1000000 : ℚ)⌉ :=
  ⟨(ttl_spec genericDbW 0 [3] ⟨none⟩ 0).1 (by decide),
   (ttl_spec genericDbW 0 [2] ⟨none⟩ 0).2.1 (by decide) rfl,
   (ttl_spec genericDbW 0 [1] ⟨some 5000000⟩ 5000000).2.2 (by decide) rfl⟩

/-! ## Theorems: EXPIRE (claims C3, C4) -/

/-- Claim C3: on an existing key, EXPIRE with no modifier sets the TTL
unconditionally; NX sets it iff the key has no TTL; XX iff it has one; GT iff
the new TTL exceeds the current one; LT iff it is below the current one; the
reply is 1 exactly when the expiration was written and 0 otherwise; and any
token whose lowercasing is not one of `nx`/`xx`/`gt`/`lt` yields the error
reply `ERR Unsupported option <tok>` with the lowercased token. -/
theorem expire_spec (db : GenericDbState) (now : Nat) (key : Bytes) (seconds : Nat)
    (e : Expiration) (tok : String) (h : db key = some e) :
    GenericCommands.expire db now key seconds none
        = (put_expiration db key (e.set_ttl_seconds now seconds), .int 1)
    ∧ (GenericCommands.expire db now key seconds (some "NX")
        = if e.has_ttl then (db, .int 0)
          else (put_expiration db key (e.set_ttl_seconds now seconds), .int 1))
    ∧ (GenericCommands.expire db now key seconds (some "XX")
        = if e.has_ttl then (put_expiration db key (e.set_ttl_seconds now seconds), .int 1)
          else (db, .int 0))
    ∧ (GenericCommands.expire db now key seconds (some "GT")
        = if e.ttl_in_seconds now < seconds then
            (put_expiration db key (e.set_ttl_seconds now seconds), .int 1)
          else (db, .int 0))
    ∧ (GenericCommands.expire db now key seconds (some "LT")
        = if seconds < e.ttl_in_seconds now then
            (put_expiration db key (e.set_ttl_seconds now seconds), .int 1)
          else (db, .int 0))
    ∧ (strLower tok ∉ (["nx", "xx", "gt", "lt"] : List String) →
        GenericCommands.expire db now key seconds (some tok)
          = (db, .err ("ERR Unsupported option " ++ strLower tok))) := by
  have hnx : strLower "NX" = "nx" := by decide
  have hxx : strLower "XX" = "xx" := by decide
  have hgt : strLower "GT" = "gt" := by decide
  have hlt : strLower "LT" = "lt" := by decide
  refine ⟨?_, ?_, ?_, ?_, ?_, ?_⟩
  · simp [GenericCommands.expire, h]
  · simp only [GenericCommands.expire, h, hnx]
    by_cases ht : e.has_ttl <;> simp [ht]
  · simp only [GenericCommands.expire, h, hxx]
    by_cases ht : e.has_ttl <;> simp [ht]
  · simp only [GenericCommands.expire, h, hgt]
    by_cases hc : e.ttl_in_seconds now < seconds <;> simp [hc]
  · simp only [GenericCommands.expire, h, hlt]
    by_cases hc : seconds < e.ttl_in_seconds now <;> simp [hc]
  · intro hno
    simp only [List.mem_cons, List.mem_singleton, not_or] at hno
    obtain ⟨h1, h2, h3, h4⟩ := hno
    simp [GenericCommands.expire, h, h1, h2, h3, h4]

/-- Witness for claim C3 at the concrete database `genericDbW`: key `[1]`
exists with a TTL; with no modifier the TTL is set and the reply is 1, and
the token `Foo` produces the unsupported-option error. -/
theorem expire_spec_witness :
    genericDbW [1] = some ⟨some 5000000⟩
    ∧ GenericCommands.expire genericDbW 0 [1] 3 none
        = (put_expiration genericDbW [1] (Expiration.set_ttl_seconds ⟨some 5000000⟩ 0 3), .int 1)
    ∧ GenericCommands.expire genericDbW 0 [1] 3 (some "Foo")
        = (genericDbW, .err ("ERR Unsupported option " ++ strLower "Foo")) :=
  ⟨by decide,
   (expire_spec genericDbW 0 [1] 3 ⟨some 5000000⟩ "Foo" (by decide)).1,
   (expire_spec genericDbW 0 [1] 3 ⟨some 5000000⟩ "Foo" (by decide)).2.2.2.2.2 (by decide)⟩

/-- Claim C4: EXPIRE with the GT modifier on an existing key that has no TTL
replies 0 and leaves the key's entry (hence its absent TTL) unchanged; the
second count is bounded by the `u64` range it is parsed from. -/
theorem expire_gt_no_ttl (db : GenericDbState) (now : Nat) (key : Bytes) (seconds : Nat)
    (e : Expiration) (h : db key = some e) (hn : e.expiry_micros = none)
    (hs : seconds < 2 ^ 64) :
    GenericCommands.expire db now key seconds (some "GT") = (db, .int 0)
    ∧ (GenericCommands.expire db now key seconds (some "GT")).1 key = some e := by
  have hgt : strLower "GT" = "gt" := by decide
  have hmax : e.ttl_in_seconds now = 2 ^ 64 - 1 := by
    unfold Expiration.ttl_in_seconds
    rw [hn]
  have hcond : ¬ (e.ttl_in_seconds now < seconds) := by
    rw [hmax]; omega
  have hres : GenericCommands.expire db now key seconds (some "GT") = (db, .int 0) := by
    simp [GenericCommands.expire, h, hgt, hcond]
  exact ⟨hres, by rw [hres]; exact h⟩

/-- Witness for claim C4: key `[2]` of `genericDbW` exists without TTL;
`EXPIRE [2] 100 GT` replies 0 and the entry is unchanged. -/
theorem expire_gt_no_ttl_witness :
    genericDbW [2] = some ⟨none⟩
    ∧ GenericCommands.expire genericDbW 0 [2] 100 (some "GT") = (genericDbW, .int 0)
    ∧ (GenericCommands.expire genericDbW 0 [2] 100 (some "GT")).1 [2] = some ⟨none⟩ :=
  ⟨by decide,
   (expire_gt_no_ttl genericDbW 0 [2] 100 ⟨none⟩ (by decide) rfl (by decide)).1,
   (expire_gt_no_ttl genericDbW 0 [2] 100 ⟨none⟩ (by decide) rfl (by decide)).2⟩


/-! ## Theorems: blocked-client wakeup (claim C5) -/

theorem popWakeups_decomp (q : List Sender) :
    ∀ n : Nat, (popWakeups n q).2.1 ++ (popWakeups n q).1 = q := by
  induction q with
  | nil => intro n; cases n <;> simp [popWakeups]
  | cons s rest ih =>
    intro n
    cases n with
    | zero => simp [popWakeups]
    | succ m =>
      by_cases hs : s.closed <;> simp [popWakeups, hs, ih]

theorem popWakeups_signalled (q : List Sender) :
    ∀ n : Nat, (popWakeups n q).2.2 = (popWakeups n q).2.1.filter (fun s => !s.closed) := by
  induction q with
  | nil => intro n; cases n <;> simp [popWakeups]
  | cons s rest ih =>
    intro n
    cases n with
    | zero => simp [popWakeups]
    | succ m =>
      by_cases hs : s.closed <;> simp [popWakeups, hs, ih]

theorem popWakeups_sent_le (q : List Sender) :
    ∀ n : Nat, (popWakeups n q).2.2.length ≤ n := by
  induction q with
  | nil => intro n; cases n <;> simp [popWakeups]
  | cons s rest ih =>
    intro n
    cases n with
    | zero => simp [popWakeups]
    | succ m =>
      by_cases hs : s.closed
      · simpa [popWakeups, hs] using ih (m + 1)
      · have := ih m
        simp only [popWakeups, hs, if_false, Bool.false_eq_true, List.length_cons]
        omega

theorem popWakeups_stop (q : List Sender) :
    ∀ n : Nat, (popWakeups n q).1 = [] ∨ (popWakeups n q).2.2.length = n := by
  induction q with
  | nil => intro n; cases n <;> simp [popWakeups]
  | cons s rest ih =>
    intro n
    cases n with
    | zero => right; simp [popWakeups]
    | succ m =>
      by_cases hs : s.closed
      · simpa [popWakeups, hs] using ih (m + 1)
      · rcases ih m with h | h
        · left; simpa [popWakeups, hs] using h
        · right
          simp only [popWakeups, hs, if_false, Bool.false_eq_true, List.length_cons]
          omega

/-- Claim C5 (amended): when the table is nonempty and `key` has the queue
`q`, `wakeup_clients` pops senders from the front of `q` until `n` signals
have been delivered or the queue is exhausted — closed senders are popped,
dropped without a signal, and do not count toward `n`; the signalled senders
are exactly the open popped ones, at most `n` of them (exactly `n` unless the
queue ran out); the map entry is removed exactly when the remaining queue is
empty; and a key with no registered queue leaves the table untouched. -/
theorem wakeup_clients_spec (st : BlockedClientTable) (key : Bytes) (n : Nat)
    (q : List Sender) (hne : st.isEmpty = false) (hq : lookupQueue st key = some q) :
    wakeup_clients st key n
      = (if (popWakeups n q).1.isEmpty then removeQueue st key
         else setQueue st key (popWakeups n q).1,
         (popWakeups n q).2.1, (popWakeups n q).2.2)
    ∧ (popWakeups n q).2.1 ++ (popWakeups n q).1 = q
    ∧ (popWakeups n q).2.2 = (popWakeups n q).2.1.filter (fun s => !s.closed)
    ∧ (popWakeups n q).2.2.length ≤ n
    ∧ ((popWakeups n q).1 = [] ∨ (popWakeups n q).2.2.length = n)
    ∧ (∀ key2, lookupQueue st key2 = none → wakeup_clients st key2 n = (st, [], [])) := by
  refine ⟨?_, popWakeups_decomp q n, popWakeups_signalled q n,
    popWakeups_sent_le q n, popWakeups_stop q n, ?_⟩
  · simp only [wakeup_clients, hne, Bool.false_eq_true, if_false, hq]
    split <;> rfl
  · intro key2 hk2
    simp [wakeup_clients, hne, hk2]

/-- Concrete blocked-clients table used for claim C5: one key `[0]`, whose
queue holds a closed sender (id 0) followed by an open one (id 1). -/
def blockedW : BlockedClientTable :=
  [([0], [⟨0, true⟩, ⟨1, false⟩])]

/-- Counterexample to claim C5 as stated: waking 1 client on `blockedW` pops
2 senders — the closed one is popped and skipped without counting toward
`n` — so "pops at most n senders" fails at `n = 1`. -/
theorem wakeup_clients_counterexample :
    (wakeup_clients blockedW [0] 1).2.1.length = 2
    ∧ ¬ ((wakeup_clients blockedW [0] 1).2.1.length ≤ 1) := by
  decide

/-- Witness for claim C5 (amended) on the concrete table `blockedW`: the
popped senders are the whole queue (closed then open), only the open one is
signalled, and the emptied map entry is removed. -/
theorem wakeup_clients_spec_witness :
    blockedW.isEmpty = false
    ∧ lookupQueue blockedW [0] = some [⟨0, true⟩, ⟨1, false⟩]
    ∧ wakeup_clients blockedW [0] 1
        = (if (popWakeups 1 [⟨0, true⟩, ⟨1, false⟩]).1.isEmpty then removeQueue blockedW [0]
           else setQueue blockedW [0] (popWakeups 1 [⟨0, true⟩, ⟨1, false⟩]).1,
           (popWakeups 1 [⟨0, true⟩, ⟨1, false⟩]).2.1,
           (popWakeups 1 [⟨0, true⟩, ⟨1, false⟩]).2.2)
    ∧ (popWakeups 1 [⟨0, true⟩, ⟨1, false⟩]).2.2
        = (popWakeups 1 [⟨0, true⟩, ⟨1, false⟩]).2.1.filter (fun s => !s.closed) :=
  ⟨by decide, by decide,
   (wakeup_clients_spec blockedW [0] 1 [⟨0, true⟩, ⟨1, false⟩] (by decide) (by decide)).1,
   (wakeup_clients_spec blockedW [0] 1 [⟨0, true⟩, ⟨1, false⟩] (by decide) (by decide)).2.2.1⟩

/-! ## Theorems: DEL (claim C1) -/

theorem delOne_hashFields (db : TypedDb) (k : Bytes) :
    (GenericCommands.delOne db k).1.hashFields = db.hashFields := by
  unfold GenericCommands.delOne
  cases h : db.primaryType k with
  | none => rfl
  | some t => cases t <;> rfl

theorem delOne_primaryType_self (db : TypedDb) (k : Bytes) :
    (GenericCommands.delOne db k).1.primaryType k = none := by
  unfold GenericCommands.delOne
  cases h : db.primaryType k with
  | none => exact h
  | some t => cases t <;> simp [GenericDb.delete, ListDb.remove]

theorem delOne_primaryType_ne (db : TypedDb) (k q : Bytes) (h : q ≠ k) :
    (GenericCommands.delOne db k).1.primaryType q = db.primaryType q := by
  unfold GenericCommands.delOne
  cases hk : db.primaryType k with
  | none => rfl
  | some t => cases t <;> simp [GenericDb.delete, ListDb.remove, h]

theorem delOne_listNodes_ne (db : TypedDb) (k q : Bytes) (i : Nat) (h : q ≠ k) :
    (GenericCommands.delOne db k).1.listNodes q i = db.listNodes q i := by
  unfold GenericCommands.delOne
  cases hk : db.primaryType k with
  | none => rfl
  | some t => cases t <;> simp [GenericDb.delete, ListDb.remove, h]

theorem delOne_listNodes_self (db : TypedDb) (k : Bytes) (i : Nat)
    (h : db.primaryType k = some .VALUE_LIST) :
    (GenericCommands.delOne db k).1.listNodes k i = none := by
  unfold GenericCommands.delOne
  rw [h]
  simp [ListDb.remove]

theorem delOne_deleted (db : TypedDb) (k : Bytes) :
    (GenericCommands.delOne db k).2 = (db.primaryType k).isSome := by
  unfold GenericCommands.delOne
  cases h : db.primaryType k with
  | none => rfl
  | some t => cases t <;> rfl

theorem del_hashFields (ks : List Bytes) :
    ∀ db : TypedDb, (GenericCommands.del db ks).1.hashFields = db.hashFields := by
  induction ks with
  | nil => intro db; rfl
  | cons k rest ih =>
    intro db
    show (GenericCommands.del (GenericCommands.delOne db k).1 rest).1.hashFields = _
    rw [ih, delOne_hashFields]

theorem del_primaryType_pres_none (ks : List Bytes) :
    ∀ (db : TypedDb) (q : Bytes), db.primaryType q = none →
      (GenericCommands.del db ks).1.primaryType q = none := by
  induction ks with
  | nil => intro db q h; exact h
  | cons k rest ih =>
    intro db q h
    show (GenericCommands.del (GenericCommands.delOne db k).1 rest).1.primaryType q = none
    apply ih
    by_cases hq : q = k
    · subst hq; exact delOne_primaryType_self db q
    · rw [delOne_primaryType_ne db k q hq]; exact h

theorem del_primaryType_ne (ks : List Bytes) :
    ∀ (db : TypedDb) (q : Bytes), q ∉ ks →
      (GenericCommands.del db ks).1.primaryType q = db.primaryType q := by
  induction ks with
  | nil => intro db q _; rfl
  | cons k rest ih =>
    intro db q h
    have hk : q ≠ k := fun he => h (by simp [he])
    have hr : q ∉ rest := fun he => h (List.mem_cons_of_mem _ he)
    show (GenericCommands.del (GenericCommands.delOne db k).1 rest).1.primaryType q = _
    rw [ih _ q hr, delOne_primaryType_ne db k q hk]

theorem del_listNodes_ne (ks : List Bytes) :
    ∀ (db : TypedDb) (q : Bytes) (i : Nat), q ∉ ks →
      (GenericCommands.del db ks).1.listNodes q i = db.listNodes q i := by
  induction ks with
  | nil => intro db q i _; rfl
  | cons k rest ih =>
    intro db q i h
    have hk : q ≠ k := fun he => h (by simp [he])
    have hr : q ∉ rest := fun he => h (List.mem_cons_of_mem _ he)
    show (GenericCommands.del (GenericCommands.delOne db k).1 rest).1.listNodes q i = _
    rw [ih _ q i hr, delOne_listNodes_ne db k q i hk]

theorem countP_congr_list (l : List Bytes) (p p2 : Bytes → Bool)
    (h : ∀ a ∈ l, p a = p2 a) : l.countP p = l.countP p2 := by
  induction l with
  | nil => rfl
  | cons a rest ih =>
    rw [List.countP_cons, List.countP_cons, h a (by simp),
      ih (fun b hb => h b (List.mem_cons_of_mem _ hb))]

/-- Claim C1 (amended): DEL processes each key under its exclusive lock and
replies with the number of keys actually removed (absent keys contribute
nothing); for each distinct key argument the primary entry is deleted, and
for list-typed keys every list-node entry as well — but for keys of any
other type, hash keys included, only the primary entry is removed: the hash
field entries are left in the store (unreachable, since their primary is
gone). -/
theorem del_spec (db : TypedDb) (ks : List Bytes) (hnd : ks.Nodup) :
    (GenericCommands.del db ks).2 = ks.countP (fun k => (db.primaryType k).isSome)
    ∧ (∀ k, k ∈ ks → (GenericCommands.del db ks).1.primaryType k = none)
    ∧ (∀ k i, k ∈ ks → db.primaryType k = some .VALUE_LIST →
        (GenericCommands.del db ks).1.listNodes k i = none)
    ∧ (GenericCommands.del db ks).1.hashFields = db.hashFields := by
  induction ks generalizing db with
  | nil =>
    refine ⟨rfl, ?_, ?_, rfl⟩ <;> intro k <;> simp
  | cons k rest ih =>
    have hk : k ∉ rest := (List.nodup_cons.mp hnd).1
    have hnd2 : rest.Nodup := (List.nodup_cons.mp hnd).2
    obtain ⟨ihc, ihp, ihl, ihh⟩ := ih (GenericCommands.delOne db k).1 hnd2
    have hdel : GenericCommands.del db (k :: rest)
        = ((GenericCommands.del (GenericCommands.delOne db k).1 rest).1,
           (if (GenericCommands.delOne db k).2 then 1 else 0)
             + (GenericCommands.del (GenericCommands.delOne db k).1 rest).2) := rfl
    refine ⟨?_, ?_, ?_, ?_⟩
    · rw [hdel]
      show (if (GenericCommands.delOne db k).2 then 1 else 0)
          + (GenericCommands.del (GenericCommands.delOne db k).1 rest).2 = _
      rw [ihc, List.countP_cons,
        countP_congr_list rest _ (fun q => (db.primaryType q).isSome)
          (fun a ha => by rw [delOne_primaryType_ne db k a (fun he => hk (he ▸ ha))]),
        delOne_deleted]
      cases hp : (db.primaryType k).isSome
      · simp
      · simp
        omega
    · intro q hq
      rw [hdel]
      rcases List.mem_cons.mp hq with he | hm
      · subst he
        exact del_primaryType_pres_none rest _ q (delOne_primaryType_self db q)
      · exact ihp q hm
    · intro q i hq ht
      rw [hdel]
      rcases List.mem_cons.mp hq with he | hm
      · subst he
        show (GenericCommands.del (GenericCommands.delOne db q).1 rest).1.listNodes q i = none
        rw [del_listNodes_ne rest _ q i hk]
        exact delOne_listNodes_self db q i ht
      · show (GenericCommands.del (GenericCommands.delOne db k).1 rest).1.listNodes q i = none
        have hqk : q ≠ k := fun he => hk (he ▸ hm)
        exact ihl q i hm (by rw [delOne_primaryType_ne db k q hqk]; exact ht)
    · rw [hdel]
      show (GenericCommands.del (GenericCommands.delOne db k).1 rest).1.hashFields = _
      rw [ihh, delOne_hashFields]

/-- Concrete typed database used for claim C1: key `[5]` is a hash with one
field `[7]` (value `[1]`), key `[3]` is a list with one node (id 0), and key
`[4]` is a string. -/
def typedDbW : TypedDb :=
  { primaryType := fun k =>
      if k = [5] then some .VALUE_HASH
      else if k = [3] then some .VALUE_LIST
      else if k = [4] then some .VALUE_STRING
      else none,
    listNodes := fun k i => if k = [3] ∧ i = 0 then some [9] else none,
    hashFields := fun k f => if k = [5] ∧ f = [7] then some [1] else none }

/-- Counterexample to claim C1 as stated: `DEL [5]` on the hash key `[5]`
counts the key as removed and deletes its primary entry, yet the hash field
entry `([5], [7])` is still present afterwards — the substructure of a hash
is not deleted, contradicting "deletes the primary entry and all of its
substructure (list nodes, hash fields)". -/
theorem del_counterexample :
    (GenericCommands.del typedDbW [[5]]).2 = 1
    ∧ (GenericCommands.del typedDbW [[5]]).1.primaryType [5] = none
    ∧ (GenericCommands.del typedDbW [[5]]).1.hashFields [5] [7] = some [1]
    ∧ ¬ ((GenericCommands.del typedDbW [[5]]).1.hashFields [5] [7] = none) := by
  refine ⟨rfl, rfl, rfl, ?_⟩
  intro h
  exact Option.noConfusion ((rfl : (GenericCommands.del typedDbW [[5]]).1.hashFields [5] [7] = some [1]) ▸ h)

/-- Witness for claim C1 (amended) on `typedDbW`: deleting the string, list
and hash keys together with an absent key replies 3, removes all three
primary entries and the list node, and leaves the hash field entry in
place. -/
theorem del_spec_witness :
    ([[4], [3], [5], [6]] : List Bytes).Nodup
    ∧ (GenericCommands.del typedDbW [[4], [3], [5], [6]]).2
        = ([[4], [3], [5], [6]] : List Bytes).countP (fun k => (typedDbW.primaryType k).isSome)
    ∧ (GenericCommands.del typedDbW [[4], [3], [5], [6]]).1.primaryType [3] = none
    ∧ (GenericCommands.del typedDbW [[4], [3], [5], [6]]).1.listNodes [3] 0 = none
    ∧ (GenericCommands.del typedDbW [[4], [3], [5], [6]]).1.hashFields = typedDbW.hashFields :=
  ⟨by decide,
   (del_spec typedDbW [[4], [3], [5], [6]] (by decide)).1,
   (del_spec typedDbW [[4], [3], [5], [6]] (by decide)).2.1 [3] (by decide),
   (del_spec typedDbW [[4], [3], [5], [6]] (by decide)).2.2.1 [3] 0 (by decide) (by decide),
   (del_spec typedDbW [[4], [3], [5], [6]] (by decide)).2.2.2⟩

/-! ## Theorems: replication change-stream (claim C2) -/

theorem updatesLoop_cons (m cl : Option Nat) (c : Commit) (cs : List Commit)
    (acc : StorageUpdates) :
    updatesLoop m cl (c :: cs) acc
      = if limitReached m cl (UpdateBatchIterator.step acc c) then UpdateBatchIterator.step acc c
        else updatesLoop m cl cs (UpdateBatchIterator.step acc c) := rfl

theorem updatesLoop_cc_le (commits : List Commit) :
    ∀ (acc : StorageUpdates) (m : Option Nat) (l : Nat),
      acc.changes_count < l →
      (updatesLoop m (some l) commits acc).changes_count ≤ l := by
  induction commits with
  | nil =>
    intro acc m l h
    exact Nat.le_of_lt h
  | cons c rest ih =>
    intro acc m l h
    rw [updatesLoop_cons]
    by_cases hr : limitReached m (some l) (UpdateBatchIterator.step acc c)
    · rw [if_pos hr]
      show acc.changes_count + 1 ≤ l
      omega
    · rw [if_neg hr]
      apply ih
      have hfalse : limitReached m (some l) (UpdateBatchIterator.step acc c) = false := by
        cases hx : limitReached m (some l) (UpdateBatchIterator.step acc c)
        · rfl
        · exact absurd hx hr
      simp only [limitReached, Bool.or_eq_false_iff, decide_eq_false_iff_not] at hfalse
      have h3 : ¬ (l ≤ acc.changes_count + 1) := hfalse.2
      show acc.changes_count + 1 < l
      omega

theorem commitsFrom_filter (rs : List URecord) :
    ∀ (s q : Nat), q ≤ s →
      (commitsFrom s rs).filter (fun c => decide (q < c.seq)) = commitsFrom s rs := by
  induction rs with
  | nil => intro s q _; rfl
  | cons r rest ih =>
    intro s q h
    have hq : q < s + 1 := by omega
    simp only [commitsFrom, List.filter_cons, decide_eq_true_eq, hq, if_true]
    rw [ih (s + 1) q (by omega)]

theorem updatesLoop_singles (rs : List URecord) :
    ∀ (l s : Nat) (acc : StorageUpdates), 0 < l → l ≤ rs.length →
      updatesLoop none (some (acc.changes_count + l)) (commitsFrom s rs) acc
        = ⟨acc.start_seq_number, s + l, acc.changes_count + l, acc.records ++ rs.take l⟩ := by
  induction rs with
  | nil =>
    intro l s acc hl hlen
    simp at hlen
    omega
  | cons r rest ih =>
    intro l s acc hl hlen
    obtain ⟨l2, rfl⟩ : ∃ l2, l = l2 + 1 := ⟨l - 1, by omega⟩
    show updatesLoop none (some (acc.changes_count + (l2 + 1)))
        (⟨s + 1, [r]⟩ :: commitsFrom (s + 1) rest) acc = _
    have hstep : UpdateBatchIterator.step acc ⟨s + 1, [r]⟩
        = ⟨acc.start_seq_number, s + 1, acc.changes_count + 1, acc.records ++ [r]⟩ := rfl
    rw [updatesLoop_cons]
    by_cases hz : l2 = 0
    · subst hz
      have hlim : limitReached none (some (acc.changes_count + (0 + 1)))
          (UpdateBatchIterator.step acc ⟨s + 1, [r]⟩) = true := by
        rw [hstep]
        simp [limitReached]
      rw [if_pos hlim, hstep]
      simp
    · have hlim : limitReached none (some (acc.changes_count + (l2 + 1)))
          (UpdateBatchIterator.step acc ⟨s + 1, [r]⟩) = false := by
        rw [hstep]
        simp only [limitReached, Bool.false_or, decide_eq_false_iff_not]
        show ¬ (acc.changes_count + (l2 + 1) ≤ acc.changes_count + 1)
        omega
      rw [if_neg (by rw [hlim]; exact Bool.false_ne_true)]
      have harith : acc.changes_count + (l2 + 1)
          = (UpdateBatchIterator.step acc ⟨s + 1, [r]⟩).changes_count + l2 := by
        show acc.changes_count + (l2 + 1) = acc.changes_count + 1 + l2
        omega
      have hlen2 : l2 ≤ rest.length := by
        simp only [List.length_cons] at hlen
        omega
      rw [harith, ih l2 (s + 1) _ (by omega) hlen2]
      simp only [hstep]
      have hb : s + 1 + l2 = s + (l2 + 1) := by omega
      have hc : acc.changes_count + 1 + l2 = acc.changes_count + (l2 + 1) := by omega
      have hrec : (acc.records ++ [r]) ++ List.take l2 rest
          = acc.records ++ List.take (l2 + 1) (r :: rest) := by
        simp [List.take_succ_cons]
      rw [hb, hc, hrec]

/-- Claim C2 (amended): `changes_count_limit` caps the number of commits
(write batches) accumulated — not the number of put/delete records, since a
commit's records are appended as a whole before the counters are checked —
and over a run of single-record commits the cap is exact: with 20 single-SET
commits and a limit of 10, the returned batch is exactly the 10 records of
commits 1..10, ending at sequence number 10.  Likewise `memory_limit` stops
accumulation only after the commit that reaches it has been appended whole,
so the body may exceed it. -/
theorem storage_updates_since_spec (log : List Commit) (s l : Nat) (m : Option Nat)
    (rs : List URecord) (hl : 1 ≤ l) (h20 : rs.length = 20) :
    (storage_updates_since log s m (some l)).changes_count ≤ l
    ∧ storage_updates_since (commitsFrom 0 rs) 0 none (some 10)
        = ⟨0, 10, 10, rs.take 10⟩ := by
  constructor
  · unfold storage_updates_since
    apply updatesLoop_cc_le
    show 0 < l
    omega
  · unfold storage_updates_since
    rw [commitsFrom_filter rs 0 0 (by omega)]
    have h := updatesLoop_singles rs 10 0 (StorageUpdates.from_seq_number 0)
      (by omega) (by omega)
    simpa [StorageUpdates.from_seq_number] using h

/-- Concrete change log used for claim C2: a single commit (sequence 1)
carrying two put records. -/
def logW : List Commit :=
  [⟨1, [URecord.put [0] [0], URecord.put [1] [0]]⟩]

/-- Counterexample to claim C2 as stated: with `changes_count_limit = 1` the
returned batch still holds the 2 put records of the one commit — the limit
caps commits, not records — and with `memory_limit = 1` the serialized body
is 38 bytes, exceeding the cap, because the limit is only checked after the
whole commit was appended. -/
theorem storage_updates_since_counterexample :
    (storage_updates_since logW 0 none (some 1)).records.length = 2
    ∧ ¬ ((storage_updates_since logW 0 none (some 1)).records.length ≤ 1)
    ∧ (storage_updates_since logW 0 (some 1) none).len = 38
    ∧ ¬ ((storage_updates_since logW 0 (some 1) none).len ≤ 1) := by
  decide

/-- Witness for claim C2 (amended): at the concrete log `logW` with record
limit 1 the commit count is capped by 1, and 20 single-record commits with
limit 10 return exactly the first 10 records with end sequence 10. -/
theorem storage_updates_since_spec_witness :
    (storage_updates_since logW 0 none (some 1)).changes_count ≤ 1
    ∧ storage_updates_since (commitsFrom 0 (List.replicate 20 (URecord.del [0]))) 0 none (some 10)
        = ⟨0, 10, 10, (List.replicate 20 (URecord.del [0])).take 10⟩ :=
  storage_updates_since_spec logW 0 1 none (List.replicate 20 (URecord.del [0]))
    (by decide) (by decide)

end SableSpec
